import Mathlib

/-!
Verification of the `JsonCache` persistent memoization cache and its `cached`
decorator (source: `src/json_cache.py`).

Modelling conventions of this shallow embedding:

* JSON-serializable values are the inductive `Json` below; timestamps
  (POSIX seconds, `make_timestamp()` in the source) are modelled as integers
  (`Int`); only their ordering and differences matter to the code.
* The in-memory cache `self.cache` is a Python `dict` preserving insertion
  order with unique keys; it is modelled as an association list
  `List (String × Json × Int)` of `(call, (response, created_at))` entries, in
  insertion order.  Assignment to an existing key keeps its position
  (`setEntry`), as Python dicts do.  Lists arising from actual executions
  have pairwise-distinct keys; theorems assume that (`Nodup`) where needed.
* `make_timestamp()` is an effect; every operation that calls it takes the
  reading as an explicit `Int` argument.  `_purge_expired` calls
  `_age_check` once per iterated entry, hence it takes a whole clock
  `ℕ → Int` giving the reading obtained at the i-th iteration.
* The backing file is modelled by `FileContents`: a missing file, an
  existing empty file, well-formed serialized contents (`json.dump` of the
  entry mapping), or unparseable text (`garbage`).  `json.loads` failing on
  garbage (a `json.JSONDecodeError`, the spec's `CorruptCache`) is the
  `CacheError.corruptCache` outcome.  Paths are abstracted away: each
  session works against one backing file.
* Python's `with` statement runs `__exit__` when the body finishes or
  raises, but not when `__enter__` itself raises: `runSession` encodes
  exactly that.
-/

/-- JSON-serializable values (numbers restricted to integers, since only
ordering of timestamps and equality of payloads matter here). -/
inductive Json : Type where
  | null : Json
  | bool (b : Bool) : Json
  | num (n : Int) : Json
  | str (s : String) : Json
  | arr (xs : List Json) : Json
  | obj (xs : List (String × Json)) : Json

/-- Errors surfaced by the cache layer, following the spec's taxonomy:
`keyNotFound` is Python's `KeyError` from `retrieve`, `corruptCache` is the
`json.JSONDecodeError` raised by `json.loads` on malformed contents, and
`valueError` is the `ValueError` raised by the `for k, v in kwargs`
tuple-unpacking in `cache_wrapper`. -/
inductive CacheError : Type where
  | keyNotFound : CacheError
  | corruptCache : CacheError
  | valueError : CacheError
deriving DecidableEq

/-- One cache entry: `(call, (response, created_at))`. -/
abbrev CacheEntry : Type := String × Json × Int

/-- State of the backing file. `data m` stands for the `json.dump` of a
cache mapping `m` (note `json.dump` of an empty dict still writes
non-empty text, distinct from an empty file); `garbage` is non-empty text
that `json.loads` rejects. -/
inductive FileContents : Type where
  | missing : FileContents
  | empty : FileContents
  | data (m : List CacheEntry) : FileContents
  | garbage : FileContents

/-- The `JsonCache` object: policy parameters and the in-memory mapping.
`max_size = 0` and `max_age = 0` disable the respective checks, as in the
source. -/
structure JsonCache : Type where
  max_size : Nat
  max_age : Int
  force_update : Bool
  cache : List CacheEntry

namespace JsonCache

/-- Membership test `call in self.cache` on the underlying dict. -/
def hasKey (l : List CacheEntry) (k : String) : Bool :=
  l.any (fun e => e.1 == k)

/-- Dict lookup `self.cache[call][-1]`: the `created_at` timestamp of the
first entry for `k` (callers only use it when `k` is present). -/
def timestampOf (l : List CacheEntry) (k : String) : Int :=
  match l with
  | [] => 0
  | e :: rest => if e.1 == k then e.2.2 else timestampOf rest k

/-- Dict lookup `self.cache[call][0]`: the stored response, `none` standing
for Python's `KeyError`. -/
def responseOf (l : List CacheEntry) (k : String) : Option Json :=
  match l with
  | [] => none
  | e :: rest => if e.1 == k then some e.2.1 else responseOf rest k

/-- Dict assignment `self.cache[call] = (response, make_timestamp())`:
replaces in place if the key exists (Python dicts keep the original
position), otherwise appends. -/
def setEntry (l : List CacheEntry) (k : String) (r : Json) (t : Int) :
    List CacheEntry :=
  match l with
  | [] => [(k, r, t)]
  | e :: rest => if e.1 == k then (k, r, t) :: rest else e :: setEntry rest k r t

/-- Source `JsonCache.store`: inserts/overwrites the entry for `call` with
the response and the current timestamp `now`. -/
def store (c : JsonCache) (call : String) (response : Json) (now : Int) :
    JsonCache :=
  { c with cache := setEntry c.cache call response now }

/-- Source `JsonCache.retrieve`: `self.cache[call][0]`; `none` is the
`KeyError` on an absent key. -/
def retrieve (c : JsonCache) (call : String) : Option Json :=
  responseOf c.cache call

/-- Source `JsonCache._age_check`: `make_timestamp() - self.cache[call][-1]`,
with the clock reading passed explicitly. -/
def age_check (c : JsonCache) (call : String) (now : Int) : Int :=
  now - timestampOf c.cache call

/-- Source `JsonCache._is_current`. -/
def is_current (c : JsonCache) (call : String) (now : Int) : Bool :=
  if c.force_update then false
  else if c.max_age = 0 then true
  else decide (age_check c call now < c.max_age)

/-- Source `JsonCache.__contains__`: `item in self.cache and
self._is_current(item)`. -/
def contains (c : JsonCache) (item : String) (now : Int) : Bool :=
  hasKey c.cache item && is_current c item now

/-- The list comprehension in `_purge_expired`:
`[call for call in self.cache if self._age_check(call) > self.max_age]`,
reading the clock once per iterated entry (`clock i` is the reading of the
`i`-th iteration's `_age_check`). -/
def old_calls_from (c : JsonCache) (clock : Nat → Int) (i : Nat)
    (l : List CacheEntry) : List String :=
  match l with
  | [] => []
  | e :: rest =>
      (if c.max_age < age_check c e.1 (clock i) then [e.1] else []) ++
        old_calls_from c clock (i + 1) rest

/-- Source `JsonCache._purge_expired`: no-op when `max_age` is falsy,
otherwise pops every call collected by the comprehension. -/
def purge_expired (c : JsonCache) (clock : Nat → Int) : JsonCache :=
  if c.max_age = 0 then c
  else
    { c with
      cache :=
        c.cache.filter
          (fun e => !(old_calls_from c clock 0 c.cache).contains e.1) }

/-- Comparison used by `sorted(self.cache.items(), key=lambda x: x[-1][-1])`:
order entries by their `created_at` timestamp. -/
def tsLe (a b : CacheEntry) : Bool :=
  decide (a.2.2 ≤ b.2.2)

/-- Stable insertion of an entry into a timestamp-sorted list: an element
is placed before the first strictly-later position, so equal timestamps
keep their original relative order, as Python's stable `sorted` does. -/
def insortTs (x : CacheEntry) (l : List CacheEntry) : List CacheEntry :=
  match l with
  | [] => [x]
  | y :: ys => if tsLe x y then x :: y :: ys else y :: insortTs x ys

/-- Stable sort of the entry list by `created_at` ascending, modelling
Python's `sorted(self.cache.items(), key=lambda x: x[-1][-1])`. -/
def sortByTs (l : List CacheEntry) : List CacheEntry :=
  match l with
  | [] => []
  | x :: xs => insortTs x (sortByTs xs)

/-- Source `JsonCache._purge_n_oldest`: sorts the entries by timestamp,
takes the first `count`, and pops each of their keys. -/
def purge_n_oldest (c : JsonCache) (count : Nat) : JsonCache :=
  { c with
    cache :=
      c.cache.filter
        (fun e => !(((sortByTs c.cache).take count).map (fun x => x.1)).contains e.1) }

/-- Source `JsonCache._cull_to_size`: no-op when `max_size` is falsy,
otherwise removes `len(cache) - max_size` oldest entries when over the
bound. -/
def cull_to_size (c : JsonCache) : JsonCache :=
  if c.max_size = 0 then c
  else if c.max_size < c.cache.length then
    purge_n_oldest c (c.cache.length - c.max_size)
  else c

/-- Source `JsonCache.write_file`: `json.dump(self.cache, cache_file)`
(directory creation is invisible in this model). -/
def write_file (c : JsonCache) : FileContents :=
  FileContents.data c.cache

/-- Source `JsonCache.read_file`: a missing file and an existing file with
empty contents both yield an empty mapping; well-formed contents are loaded
as-is; malformed contents make `json.loads` raise (`corruptCache`). -/
def read_file : FileContents → Except CacheError (List CacheEntry)
  | FileContents.missing => Except.ok []
  | FileContents.empty => Except.ok []
  | FileContents.data m => Except.ok m
  | FileContents.garbage => Except.error CacheError.corruptCache

end JsonCache

/-- Result of running a `with JsonCache(...) as cache:` block:
`loadFailed` means `__enter__` (i.e. `read_file`) raised, so the body never
ran and `__exit__` was not invoked; `bodyFailed` means the body raised, in
which case `__exit__` still ran. -/
inductive SessionResult (ε α : Type) : Type where
  | ok (a : α) : SessionResult ε α
  | bodyFailed (e : ε) : SessionResult ε α
  | loadFailed (e : CacheError) : SessionResult ε α

/-- Source `JsonCache.__exit__`: `_purge_expired()`, then `_cull_to_size()`,
then `write_file()`, in that order. The purge consumes clock readings. -/
def exitCleanup (c : JsonCache) (clock : Nat → Int) : FileContents :=
  JsonCache.write_file (JsonCache.cull_to_size (JsonCache.purge_expired c clock))

/-- Semantics of `with JsonCache(path, max_size, max_age, force_update) as
cache: body`.  The body is any state transformer that may raise (`Except ε`)
but always leaves the cache object in some state (Python mutates it in
place).  `__exit__` runs after normal completion and after a body
exception, but not when `__enter__` itself raised. -/
def runSession {ε α : Type} (ms : Nat) (ma : Int) (fu : Bool)
    (file : FileContents) (clock : Nat → Int)
    (body : JsonCache → Except ε α × JsonCache) :
    SessionResult ε α × FileContents :=
  match JsonCache.read_file file with
  | Except.error e => (SessionResult.loadFailed e, file)
  | Except.ok m =>
      let c : JsonCache := ⟨ms, ma, fu, m⟩
      let rc := body c
      (match rc.1 with
       | Except.ok a => SessionResult.ok a
       | Except.error e => SessionResult.bodyFailed e,
       exitCleanup rc.2 clock)

/-- Python single-quote character, used by `repr` of strings and dicts. -/
def pyQuote : String :=
  (Char.ofNat 39).toString

mutual

/-- Python `repr`-style rendering of a `Json` value, as interpolated by the
f-string `f"{args}, {kwargs}"` in `cache_wrapper`. -/
def jsonRepr : Json → String
  | Json.null => "None"
  | Json.bool b => cond b "True" "False"
  | Json.num n => toString n
  | Json.str s => pyQuote ++ s ++ pyQuote
  | Json.arr xs => "[" ++ jsonReprList xs ++ "]"
  | Json.obj xs => "\x7b" ++ jsonReprObj xs ++ "\x7d"

/-- Comma-separated rendering of list elements. -/
def jsonReprList : List Json → String
  | [] => ""
  | [x] => jsonRepr x
  | x :: y :: xs => jsonRepr x ++ ", " ++ jsonReprList (y :: xs)

/-- Comma-separated rendering of dict items. -/
def jsonReprObj : List (String × Json) → String
  | [] => ""
  | [kv] => pyQuote ++ kv.1 ++ pyQuote ++ ": " ++ jsonRepr kv.2
  | kv :: kv2 :: xs =>
      pyQuote ++ kv.1 ++ pyQuote ++ ": " ++ jsonRepr kv.2 ++ ", " ++
        jsonReprObj (kv2 :: xs)

end

/-- Tail of the tuple rendering: the remaining elements and the closing
parenthesis. -/
def pyTupleReprTail (xs : List Int) : String :=
  match xs with
  | [] => ")"
  | x :: rest => ", " ++ toString x ++ pyTupleReprTail rest

/-- Python `repr` of the positional-argument tuple `args` (arguments are
modelled as integers; a one-element tuple prints with a trailing comma). -/
def pyTupleRepr (args : List Int) : String :=
  match args with
  | [] => "()"
  | [x] => "(" ++ toString x ++ ",)"
  | x :: y :: xs => "(" ++ toString x ++ pyTupleReprTail (y :: xs)

/-- Python `repr` of the keyword-argument dict `kwargs`. -/
def pyDictRepr (kwargs : List (String × Json)) : String :=
  "\x7b" ++ jsonReprObj kwargs ++ "\x7d"

/-- The call-key built by `cache_wrapper`:
`call_string = f"{args}, {kwargs}"`. -/
def mkCallString (args : List Int) (kwargs : List (String × Json)) : String :=
  pyTupleRepr args ++ ", " ++ pyDictRepr kwargs

/-- The `for k, v in kwargs:` loop in `cache_wrapper`: iterating a dict
yields its key strings, and each key is tuple-unpacked into the two
variables `k, v`.  A string unpacks into exactly two variables iff it has
exactly two characters; otherwise Python raises a `ValueError` at the first
offending key, before the cache file is touched and before the wrapped
function is invoked.  (The `warn_if_no_str` calls only log and never
fail.) -/
def kwargsUnpackOk (kwargs : List (String × Json)) : Bool :=
  kwargs.all (fun kv => kv.1.length == 2)

/-- Source `cached` / `cache_wrapper`: the memoizing decorator applied to a
wrapped function `func` (modelled as a pure function from the
positional-argument list to a `Json` result).  Returns the call's result
(or the raised error), the resulting state of the backing file, and how
many times the wrapped function was invoked during this call (0 or 1).
`nowC` is the `make_timestamp` reading taken by the `__contains__` currency
check, `nowS` the one taken by `store`, and `clock` feeds the exit purge. -/
def cacheWrapper (ms : Nat) (ma : Int) (fu : Bool) (func : List Int → Json)
    (args : List Int) (kwargs : List (String × Json)) (file : FileContents)
    (nowC nowS : Int) (clock : Nat → Int) :
    Except CacheError Json × FileContents × Nat :=
  if kwargsUnpackOk kwargs then
    let call_string := mkCallString args kwargs
    let body : JsonCache → Except (CacheError × Nat) (Json × Nat) × JsonCache :=
      fun cache =>
        if JsonCache.contains cache call_string nowC then
          match JsonCache.retrieve cache call_string with
          | some v => (Except.ok (v, 0), cache)
          | none => (Except.error (CacheError.keyNotFound, 0), cache)
        else
          let cache2 := JsonCache.store cache call_string (func args) nowS
          match JsonCache.retrieve cache2 call_string with
          | some v => (Except.ok (v, 1), cache2)
          | none => (Except.error (CacheError.keyNotFound, 1), cache2)
    match runSession ms ma fu file clock body with
    | (SessionResult.ok (v, n), f2) => (Except.ok v, f2, n)
    | (SessionResult.bodyFailed (e, n), f2) => (Except.error e, f2, n)
    | (SessionResult.loadFailed e, f2) => (Except.error e, f2, 0)
  else (Except.error CacheError.valueError, file, 0)

/-! ### Basic lemmas about the mapping operations -/

theorem responseOf_setEntry_self (l : List CacheEntry) (k : String) (r : Json)
    (t : Int) : JsonCache.responseOf (JsonCache.setEntry l k r t) k = some r := by
  induction l with
  | nil => simp [JsonCache.setEntry, JsonCache.responseOf]
  | cons e rest ih =>
      by_cases h : e.1 == k
      · simp [JsonCache.setEntry, JsonCache.responseOf, h]
      · simp [JsonCache.setEntry, JsonCache.responseOf, h, ih]

theorem hasKey_iff (l : List CacheEntry) (k : String) :
    JsonCache.hasKey l k = true ↔ ∃ e ∈ l, e.1 = k := by
  simp [JsonCache.hasKey, List.any_eq_true]

theorem timestampOf_eq_of_mem (l : List CacheEntry) (e : CacheEntry)
    (hnd : (l.map (fun x => x.1)).Nodup) (he : e ∈ l) :
    JsonCache.timestampOf l e.1 = e.2.2 := by
  induction l with
  | nil => cases he
  | cons f rest ih =>
      rw [List.map_cons, List.nodup_cons] at hnd
      rcases List.mem_cons.mp he with h | h
      · subst h; simp [JsonCache.timestampOf]
      · have hne : ¬(f.1 == e.1) := by
          rw [beq_iff_eq]
          intro heq
          exact hnd.1 (heq ▸ List.mem_map_of_mem (fun x => x.1) h)
        simp only [JsonCache.timestampOf, hne, if_false, Bool.false_eq_true,
          ite_false]
        exact ih hnd.2 h

/-! ### C1: membership/currency check -/

/-- C1: `__contains__` returns true iff the key is present in the mapping
AND `force_update` is false AND (`max_age` is 0 OR the entry's age is
strictly less than `max_age`); in particular, with `force_update = true` it
returns false for every key, even immediately after `store()`. -/
theorem contains_current_correct (c : JsonCache) (k : String) (now : Int) :
    (JsonCache.contains c k now = true ↔
      JsonCache.hasKey c.cache k = true ∧ c.force_update = false ∧
        (c.max_age = 0 ∨ JsonCache.age_check c k now < c.max_age)) ∧
    (c.force_update = true → ∀ (r : Json) (t1 t2 : Int),
      JsonCache.contains (JsonCache.store c k r t1) k t2 = false) := by
  constructor
  · by_cases hf : c.force_update <;> by_cases hm : c.max_age = 0 <;>
      simp [JsonCache.contains, JsonCache.is_current, hf, hm]
  · intro hf r t1 t2
    simp [JsonCache.contains, JsonCache.is_current, JsonCache.store, hf]

/-- C1 witness: with `force_update = true`, the key just stored is reported
as not current. -/
theorem contains_current_correct_witness :
    JsonCache.contains
      (JsonCache.store ⟨0, 5, true, []⟩ "k" Json.null 0) "k" 3 = false :=
  (contains_current_correct ⟨0, 5, true, []⟩ "k" 3).2 rfl Json.null 0 3

/-! ### C6: store/flush/load/retrieve round-trip -/

/-- C6: for every serializable value `v` and key `k`, storing `v` under
`k`, flushing the mapping to the backing file, loading a store back from
that file, and retrieving `k` yields `v`. -/
theorem store_flush_load_retrieve_round_trip (c : JsonCache) (k : String)
    (v : Json) (now : Int) :
    JsonCache.read_file (JsonCache.write_file (JsonCache.store c k v now)) =
      Except.ok (JsonCache.store c k v now).cache ∧
    JsonCache.retrieve
      ⟨c.max_size, c.max_age, c.force_update,
        (JsonCache.store c k v now).cache⟩ k = some v := by
  refine ⟨rfl, ?_⟩
  exact responseOf_setEntry_self c.cache k v now

/-! ### C7: load error policy -/

/-- C7: loading from a nonexistent path yields an empty store, loading an
existing empty file yields an empty store, and loading an existing
non-empty file whose contents fail to parse fails with the `CorruptCache`
error, which a session propagates to its caller with no silent fallback to
an empty store. -/
theorem read_file_error_policy :
    JsonCache.read_file FileContents.missing = Except.ok [] ∧
    JsonCache.read_file FileContents.empty = Except.ok [] ∧
    JsonCache.read_file FileContents.garbage =
      Except.error CacheError.corruptCache ∧
    (∀ (ms : Nat) (ma : Int) (fu : Bool) (clock : Nat → Int)
      (body : JsonCache → Except CacheError Json × JsonCache),
      runSession ms ma fu FileContents.garbage clock body =
        (SessionResult.loadFailed CacheError.corruptCache,
         FileContents.garbage)) :=
  ⟨rfl, rfl, rfl, fun _ _ _ _ _ => rfl⟩

/-! ### C10: an entry whose age equals max_age exactly -/

/-- Lemma: a key collected by the purge comprehension failed an age check
against some clock reading. -/
theorem mem_old_calls_from (c : JsonCache) (clock : Nat → Int) :
    ∀ (i : Nat) (l : List CacheEntry) (k : String),
      k ∈ JsonCache.old_calls_from c clock i l →
      ∃ j, c.max_age < JsonCache.age_check c k (clock j) := by
  intro i l
  induction l generalizing i with
  | nil => intro k hk; cases hk
  | cons e rest ih =>
      intro k hk
      rw [JsonCache.old_calls_from, List.mem_append] at hk
      rcases hk with hk | hk
      · by_cases hcond : c.max_age < JsonCache.age_check c e.1 (clock i)
        · rw [if_pos hcond, List.mem_singleton] at hk
          exact ⟨i, hk ▸ hcond⟩
        · rw [if_neg hcond] at hk; cases hk
      · exact ih (i + 1) k hk

/-- C10: with `force_update` false and nonzero `max_age`, an entry whose
age equals `max_age` exactly is not current (lookup requires age strictly
below `max_age`) yet survives `purge_expired` (purging requires age
strictly above `max_age`); here every clock reading of the purge happens at
the same instant `now`. -/
theorem boundary_age_neither_current_nor_purged (c : JsonCache) (k : String)
    (now : Int) (h1 : c.force_update = false) (h2 : c.max_age ≠ 0)
    (h3 : JsonCache.hasKey c.cache k = true)
    (h4 : JsonCache.age_check c k now = c.max_age) :
    JsonCache.contains c k now = false ∧
    JsonCache.hasKey (JsonCache.purge_expired c (fun _ => now)).cache k = true := by
  constructor
  · simp [JsonCache.contains, JsonCache.is_current, h1, h2, h4]
  · rw [JsonCache.purge_expired, if_neg h2]
    rcases (hasKey_iff c.cache k).mp h3 with ⟨e, he, hek⟩
    have hnotold : e.1 ∉ JsonCache.old_calls_from c (fun _ => now) 0 c.cache := by
      intro hmem
      rcases mem_old_calls_from c (fun _ => now) 0 c.cache e.1 hmem with ⟨j, hj⟩
      rw [hek, h4] at hj
      exact lt_irrefl _ hj
    apply (hasKey_iff _ k).mpr
    refine ⟨e, List.mem_filter.mpr ⟨he, ?_⟩, hek⟩
    simp only [Bool.not_eq_true']
    exact (Bool.not_eq_true _).mp (fun hc => hnotold (List.elem_iff.mp hc))

/-- C10 witness: a single entry of age exactly `max_age = 10` is not
current but survives the purge. -/
theorem boundary_age_neither_current_nor_purged_witness :
    JsonCache.contains ⟨0, 10, false, [("k", Json.null, 0)]⟩ "k" 10 = false ∧
    JsonCache.hasKey
      (JsonCache.purge_expired ⟨0, 10, false, [("k", Json.null, 0)]⟩
        (fun _ => 10)).cache "k" = true :=
  boundary_age_neither_current_nor_purged ⟨0, 10, false, [("k", Json.null, 0)]⟩
    "k" 10 rfl (by decide) (by decide) (by decide)

/-! ### Sorting lemmas for size eviction -/

theorem insortTs_perm (x : CacheEntry) (l : List CacheEntry) :
    (JsonCache.insortTs x l).Perm (x :: l) := by
  induction l with
  | nil => exact List.Perm.refl _
  | cons y ys ih =>
      rw [JsonCache.insortTs]
      by_cases h : JsonCache.tsLe x y
      · rw [if_pos h]
      · rw [if_neg h]
        exact (ih.cons y).trans (List.Perm.swap x y ys)

theorem sortByTs_perm (l : List CacheEntry) :
    (JsonCache.sortByTs l).Perm l := by
  induction l with
  | nil => exact List.Perm.refl _
  | cons x xs ih =>
      rw [JsonCache.sortByTs]
      exact (insortTs_perm x (JsonCache.sortByTs xs)).trans (ih.cons x)

theorem insortTs_of_le (x : CacheEntry) (l : List CacheEntry)
    (h : ∀ y ∈ l, x.2.2 ≤ y.2.2) : JsonCache.insortTs x l = x :: l := by
  cases l with
  | nil => rfl
  | cons y ys =>
      rw [JsonCache.insortTs, if_pos]
      rw [JsonCache.tsLe, decide_eq_true_iff]
      exact h y (List.mem_cons_self y ys)

theorem sortByTs_eq_self (l : List CacheEntry)
    (h : l.Pairwise (fun a b => a.2.2 ≤ b.2.2)) : JsonCache.sortByTs l = l := by
  induction l with
  | nil => rfl
  | cons x xs ih =>
      rw [List.pairwise_cons] at h
      rw [JsonCache.sortByTs, ih h.2, insortTs_of_le x xs h.1]

theorem filter_take_keys_eq_drop (l : List CacheEntry) (n : Nat)
    (hnd : (l.map (fun x => x.1)).Nodup) :
    l.filter (fun e => !((l.take n).map (fun x => x.1)).contains e.1) =
      l.drop n := by
  induction l generalizing n with
  | nil => simp
  | cons e rest ih =>
      rw [List.map_cons, List.nodup_cons] at hnd
      cases n with
      | zero => simp
      | succ m =>
          rw [List.take_succ_cons, List.map_cons, List.drop_succ_cons]
          have hhead :
              (fun x : CacheEntry =>
                !((e.1 :: (rest.take m).map (fun x => x.1)).contains x.1)) e
                = false := by
            simp
          rw [List.filter_cons_of_neg (by simp [hhead])]
          have hcongr :
              rest.filter (fun x : CacheEntry =>
                !((e.1 :: (rest.take m).map (fun x => x.1)).contains x.1)) =
              rest.filter (fun x : CacheEntry =>
                !(((rest.take m)).map (fun x => x.1)).contains x.1) := by
            apply List.filter_congr
            intro x hx
            have hne : (x.1 == e.1) = false := by
              rw [beq_eq_false_iff_ne]
              intro heq
              exact hnd.1 (heq ▸ List.mem_map_of_mem (fun x => x.1) hx)
            simp only [List.contains_cons, hne, Bool.false_or]
          rw [hcongr, ih m hnd.2]

/-! ### C4: size eviction removes exactly the oldest entries -/

/-- C4: with `max_size = N` nonzero and `N + k` entries stored with
strictly increasing `created_at`, `cull_to_size` removes exactly the `k`
oldest entries in one bulk removal (the sort leaves the already-ordered
list unchanged) and the `N` newest remain; and `cull_to_size` is a no-op
when `max_size = 0`. -/
theorem cull_to_size_evicts_oldest (c : JsonCache) (k : Nat)
    (hms : c.max_size ≠ 0)
    (hlen : c.cache.length = c.max_size + k) (hk : 0 < k)
    (hinc : c.cache.Pairwise (fun a b => a.2.2 < b.2.2))
    (hnd : (c.cache.map (fun x => x.1)).Nodup) :
    (JsonCache.cull_to_size c).cache = c.cache.drop k ∧
    (∀ c2 : JsonCache, c2.max_size = 0 → JsonCache.cull_to_size c2 = c2) := by
  constructor
  · have hlt : c.max_size < c.cache.length := by omega
    rw [JsonCache.cull_to_size, if_neg hms, if_pos hlt]
    rw [JsonCache.purge_n_oldest]
    have hsorted : JsonCache.sortByTs c.cache = c.cache :=
      sortByTs_eq_self c.cache (hinc.imp (fun h => le_of_lt h))
    have hcount : c.cache.length - c.max_size = k := by omega
    rw [hsorted, hcount]
    exact filter_take_keys_eq_drop c.cache k hnd
  · intro c2 h
    rw [JsonCache.cull_to_size, if_pos h]

/-- C4 witness: `max_size = 2` and four entries with strictly increasing
timestamps; the two oldest are evicted and the two newest remain. -/
theorem cull_to_size_evicts_oldest_witness :
    (JsonCache.cull_to_size
      ⟨2, 0, false,
        [("a", Json.null, 0), ("b", Json.null, 1),
         ("c", Json.null, 2), ("d", Json.null, 3)]⟩).cache =
      [("c", Json.null, 2), ("d", Json.null, 3)] := by
  have h := cull_to_size_evicts_oldest
    ⟨2, 0, false,
      [("a", Json.null, 0), ("b", Json.null, 1),
       ("c", Json.null, 2), ("d", Json.null, 3)]⟩ 2
    (by decide) (by decide) (by decide)
    (by decide)
    (by decide)
  exact h.1

/-! ### C8: max_size bounds the store after a session closes -/

theorem purge_expired_max_size (c : JsonCache) (clock : Nat → Int) :
    (JsonCache.purge_expired c clock).max_size = c.max_size := by
  rw [JsonCache.purge_expired]
  split <;> rfl

theorem length_filter_not_contains_take (s : List CacheEntry) (n : Nat) :
    (s.filter (fun e =>
      !((s.take n).map (fun x => x.1)).contains e.1)).length ≤ s.length - n := by
  obtain ⟨t, d, ht, hd, hs⟩ :
      ∃ t d, t = s.take n ∧ d = s.drop n ∧ s = t ++ d :=
    ⟨s.take n, s.drop n, rfl, rfl, (List.take_append_drop n s).symm⟩
  rw [← ht]
  have htake : t.filter (fun e => !(t.map (fun x => x.1)).contains e.1) = [] := by
    apply List.filter_eq_nil_iff.mpr
    intro e he hcontra
    have hc : (t.map (fun x => x.1)).contains e.1 = true :=
      List.elem_iff.mpr (List.mem_map_of_mem (fun x => x.1) he)
    rw [hc] at hcontra
    simp at hcontra
  have hstep :
      (s.filter (fun e => !(t.map (fun x => x.1)).contains e.1)).length =
        (d.filter (fun e => !(t.map (fun x => x.1)).contains e.1)).length := by
    conv_lhs => rw [hs]
    rw [List.filter_append, htake, List.nil_append]
  rw [hstep]
  have h1 : (d.filter (fun e => !(t.map (fun x => x.1)).contains e.1)).length ≤
      d.length := List.length_filter_le _ _
  have h2 : d.length = s.length - n := by rw [hd, List.length_drop]
  omega

theorem length_cull_to_size_le (c : JsonCache) (h : c.max_size ≠ 0) :
    (JsonCache.cull_to_size c).cache.length ≤ c.max_size := by
  rw [JsonCache.cull_to_size, if_neg h]
  by_cases hlt : c.max_size < c.cache.length
  · rw [if_pos hlt, JsonCache.purge_n_oldest]
    have hperm :
        (c.cache.filter (fun e =>
          !(((JsonCache.sortByTs c.cache).take
              (c.cache.length - c.max_size)).map (fun x => x.1)).contains e.1)).Perm
        ((JsonCache.sortByTs c.cache).filter (fun e =>
          !(((JsonCache.sortByTs c.cache).take
              (c.cache.length - c.max_size)).map (fun x => x.1)).contains e.1)) :=
      (sortByTs_perm c.cache).symm.filter _
    have hslen : (JsonCache.sortByTs c.cache).length = c.cache.length :=
      (sortByTs_perm c.cache).length_eq
    have hbound := length_filter_not_contains_take (JsonCache.sortByTs c.cache)
      (c.cache.length - c.max_size)
    rw [hslen] at hbound
    rw [hperm.length_eq]
    omega
  · rw [if_neg hlt]
    omega

/-- C8: for a session over a store with nonzero `max_size` (and a body
that leaves the policy parameters alone, as every cache user does), the
flushed backing file after the session closes holds at most `max_size`
entries, however large the store transiently grew inside the session. -/
theorem session_size_bound {ε α : Type} (ms : Nat) (ma : Int) (fu : Bool)
    (file : FileContents) (clock : Nat → Int)
    (body : JsonCache → Except ε α × JsonCache) (m : List CacheEntry)
    (hms : ms ≠ 0) (hread : JsonCache.read_file file = Except.ok m)
    (hbody : (body ⟨ms, ma, fu, m⟩).2.max_size = ms) :
    ∃ m2, (runSession ms ma fu file clock body).2 = FileContents.data m2 ∧
      m2.length ≤ ms := by
  refine ⟨(JsonCache.cull_to_size
      (JsonCache.purge_expired (body ⟨ms, ma, fu, m⟩).2 clock)).cache, ?_, ?_⟩
  · simp only [runSession, hread, exitCleanup, JsonCache.write_file]
  · have h1 : (JsonCache.purge_expired (body ⟨ms, ma, fu, m⟩).2 clock).max_size = ms := by
      rw [purge_expired_max_size, hbody]
    have h2 := length_cull_to_size_le
      (JsonCache.purge_expired (body ⟨ms, ma, fu, m⟩).2 clock) (by rw [h1]; exact hms)
    rw [h1] at h2
    exact h2

/-- Session body used by the C8 witness: completes normally without
touching the store. -/
def exBodyC8 : JsonCache → Except CacheError Nat × JsonCache :=
  fun c => (Except.ok 0, c)

/-- C8 witness: a store loaded with two entries under `max_size = 1`
flushes at most one entry. -/
theorem session_size_bound_witness :
    ∃ m2, (runSession 1 0 false
        (FileContents.data [("a", Json.null, 0), ("b", Json.null, 1)])
        (fun _ => 0) exBodyC8).2 = FileContents.data m2 ∧ m2.length ≤ 1 :=
  session_size_bound 1 0 false
    (FileContents.data [("a", Json.null, 0), ("b", Json.null, 1)])
    (fun _ => 0) exBodyC8 [("a", Json.null, 0), ("b", Json.null, 1)]
    (by decide) rfl rfl

/-! ### C5: exit cleanup runs purge, cull, flush in order, even on error -/

/-- C5: on session release the session runs `purge_expired`, then
`cull_to_size`, then the flush to the backing file — the resulting file is
exactly `write_file` applied to `cull_to_size` applied to `purge_expired`
of the body's final store state — and this holds whether the body finished
normally or raised. -/
theorem session_exit_cleanup {ε α : Type} (ms : Nat) (ma : Int) (fu : Bool)
    (file : FileContents) (m : List CacheEntry) (clock : Nat → Int)
    (body : JsonCache → Except ε α × JsonCache)
    (hread : JsonCache.read_file file = Except.ok m) :
    (runSession ms ma fu file clock body).2 =
      JsonCache.write_file (JsonCache.cull_to_size
        (JsonCache.purge_expired (body ⟨ms, ma, fu, m⟩).2 clock)) ∧
    (∀ e, (body ⟨ms, ma, fu, m⟩).1 = Except.error e →
      (runSession ms ma fu file clock body).1 = SessionResult.bodyFailed e) ∧
    (∀ a, (body ⟨ms, ma, fu, m⟩).1 = Except.ok a →
      (runSession ms ma fu file clock body).1 = SessionResult.ok a) := by
  refine ⟨?_, ?_, ?_⟩
  · simp only [runSession, hread, exitCleanup]
  · intro e h
    simp only [runSession, hread, h]
  · intro a h
    simp only [runSession, hread, h]

/-- Session body used by the C5 witness: raises an error after doing
nothing. -/
def exBodyC5 : JsonCache → Except String Nat × JsonCache :=
  fun c => (Except.error "boom", c)

/-- C5 witness: even though the body raised, the cleanup sequence ran and
flushed the (empty) mapping to the file, and the body's error is
reported. -/
theorem session_exit_cleanup_witness :
    (runSession 0 0 false FileContents.missing (fun _ => 0) exBodyC5).2 =
      FileContents.data [] ∧
    (runSession 0 0 false FileContents.missing (fun _ => 0) exBodyC5).1 =
      SessionResult.bodyFailed "boom" := by
  have h := session_exit_cleanup 0 0 false FileContents.missing []
    (fun _ => 0) exBodyC5 rfl
  exact ⟨h.1.trans rfl, h.2.1 "boom" rfl⟩

/-! ### C2: purge_expired and the clock -/

theorem old_calls_from_subset (c : JsonCache) (clock : Nat → Int) :
    ∀ (i : Nat) (l : List CacheEntry) (k : String),
      k ∈ JsonCache.old_calls_from c clock i l → k ∈ l.map (fun x => x.1) := by
  intro i l
  induction l generalizing i with
  | nil => intro k hk; cases hk
  | cons e rest ih =>
      intro k hk
      rw [JsonCache.old_calls_from, List.mem_append] at hk
      rw [List.map_cons, List.mem_cons]
      rcases hk with hk | hk
      · left
        by_cases hc : c.max_age < JsonCache.age_check c e.1 (clock i)
        · rw [if_pos hc, List.mem_singleton] at hk; exact hk
        · rw [if_neg hc] at hk; cases hk
      · right; exact ih (i + 1) k hk

/-- Per-entry-clock survivors of an expiry purge: entry number `i` (in
iteration order) survives iff its age measured at that iteration's own
clock reading `clock i` does not exceed `max_age`.  This is the behaviour
`_purge_expired` actually implements (one `make_timestamp()` call per
entry), as opposed to the spec's single shared snapshot. -/
def keepPerEntry (ma : Int) (clock : Nat → Int) (i : Nat)
    (l : List CacheEntry) : List CacheEntry :=
  match l with
  | [] => []
  | e :: rest =>
      (if ma < clock i - e.2.2 then [] else [e]) ++
        keepPerEntry ma clock (i + 1) rest

theorem filter_old_calls_eq_keep (c : JsonCache) (clock : Nat → Int) :
    ∀ (i : Nat) (l : List CacheEntry),
      (l.map (fun x => x.1)).Nodup →
      (∀ e ∈ l, JsonCache.timestampOf c.cache e.1 = e.2.2) →
      l.filter (fun e =>
        !(JsonCache.old_calls_from c clock i l).contains e.1) =
        keepPerEntry c.max_age clock i l := by
  intro i l
  induction l generalizing i with
  | nil => intro h1 h2; rfl
  | cons e rest ih =>
      intro hnd hts
      rw [List.map_cons, List.nodup_cons] at hnd
      have htse : JsonCache.timestampOf c.cache e.1 = e.2.2 :=
        hts e (List.mem_cons_self e rest)
      have hcond : (c.max_age < JsonCache.age_check c e.1 (clock i)) ↔
          (c.max_age < clock i - e.2.2) := by
        rw [JsonCache.age_check, htse]
      have hcongr : rest.filter (fun x =>
            !(JsonCache.old_calls_from c clock i (e :: rest)).contains x.1) =
          rest.filter (fun x =>
            !(JsonCache.old_calls_from c clock (i + 1) rest).contains x.1) := by
        apply List.filter_congr
        intro x hx
        have hxe : x.1 ≠ e.1 := by
          intro heq
          exact hnd.1 (heq ▸ List.mem_map_of_mem (fun x => x.1) hx)
        rw [JsonCache.old_calls_from]
        by_cases hc : c.max_age < JsonCache.age_check c e.1 (clock i)
        · rw [if_pos hc]
          by_cases hmem : x.1 ∈ JsonCache.old_calls_from c clock (i + 1) rest
          · simp [List.elem_iff, List.mem_append, hmem, hxe]
          · simp [List.elem_iff, List.mem_append, hmem, hxe]
        · rw [if_neg hc, List.nil_append]
      have hrec := ih (i + 1) hnd.2 (fun x hx => hts x (List.mem_cons_of_mem e hx))
      by_cases hc : c.max_age < clock i - e.2.2
      · have hc' : c.max_age < JsonCache.age_check c e.1 (clock i) := hcond.mpr hc
        have hpred :
            (!(JsonCache.old_calls_from c clock i (e :: rest)).contains e.1)
            = false := by
          rw [JsonCache.old_calls_from, if_pos hc']
          have hm : e.1 ∈ [e.1] ++ JsonCache.old_calls_from c clock (i + 1) rest :=
            List.mem_append.mpr (Or.inl (List.mem_singleton.mpr rfl))
          simp [List.elem_iff, hm]
        rw [List.filter_cons_of_neg
            (p := fun x : CacheEntry =>
              !(JsonCache.old_calls_from c clock i (e :: rest)).contains x.1)
            (by
              show ¬(!(JsonCache.old_calls_from c clock i
                (e :: rest)).contains e.1) = true
              rw [hpred]
              exact Bool.false_ne_true),
          hcongr, hrec, keepPerEntry, if_pos hc, List.nil_append]
      · have hc' : ¬(c.max_age < JsonCache.age_check c e.1 (clock i)) :=
          fun hcontra => hc (hcond.mp hcontra)
        have hnotmem : e.1 ∉ JsonCache.old_calls_from c clock i (e :: rest) := by
          intro hmem
          have hsub := old_calls_from_subset c clock i (e :: rest) e.1 hmem
          rw [List.map_cons, List.mem_cons] at hsub
          rcases hsub with h | h
          · rw [JsonCache.old_calls_from, if_neg hc', List.nil_append] at hmem
            exact hnd.1 (old_calls_from_subset c clock (i + 1) rest e.1 hmem)
          · exact hnd.1 h
        have hpred :
            (!(JsonCache.old_calls_from c clock i (e :: rest)).contains e.1)
            = true := by
          simp [List.elem_iff, hnotmem]
        rw [List.filter_cons_of_pos
            (p := fun x : CacheEntry =>
              !(JsonCache.old_calls_from c clock i (e :: rest)).contains x.1)
            hpred,
          hcongr, hrec, keepPerEntry, if_neg hc, List.singleton_append]

/-- C2 counterexample input: two entries created at the same instant, with
`max_age = 10`. -/
def snapshotCex : JsonCache :=
  ⟨0, 10, false, [("a", Json.null, 0), ("b", Json.null, 0)]⟩

/-- C2 counterexample clock: the purge's successive `make_timestamp()`
calls return 10, 11, ... (a clock advancing by one second per read). -/
def snapshotCexClock : Nat → Int :=
  fun i => 10 + (i : Int)

/-- Modelled from the spec: an expiry purge that uses one single common
"now" snapshot for every age comparison (the behaviour the claim asserts),
stated for the refinement comparison with the source's `purge_expired`. -/
def purge_expired_single (c : JsonCache) (now : Int) : JsonCache :=
  if c.max_age = 0 then c
  else
    { c with
      cache := c.cache.filter (fun e => !(decide (c.max_age < now - e.2.2))) }

/-- C2 counterexample: on `snapshotCex`, with the clock advancing between
the two per-entry `make_timestamp()` calls, `_purge_expired` removes entry
`"b"` but keeps entry `"a"` although both were created at the same
instant; no single common "now" snapshot produces that removal set, so the
claim's single-snapshot assertion is false of the code. -/
theorem purge_expired_not_single_snapshot :
    ¬ ∃ now : Int, JsonCache.purge_expired snapshotCex snapshotCexClock =
      purge_expired_single snapshotCex now := by
  rintro ⟨now, h⟩
  have hlen := congrArg (fun c : JsonCache => c.cache.length) h
  simp only at hlen
  have hL : (JsonCache.purge_expired snapshotCex snapshotCexClock).cache.length
      = 1 := by decide
  rw [hL] at hlen
  by_cases hn : (10 : Int) < now
  · have hR : (purge_expired_single snapshotCex now).cache.length = 0 := by
      rw [purge_expired_single, if_neg (by decide)]
      simp [snapshotCex, hn]
    rw [hR] at hlen
    cases hlen
  · have hR : (purge_expired_single snapshotCex now).cache.length = 2 := by
      rw [purge_expired_single, if_neg (by decide)]
      simp [snapshotCex, hn]
    rw [hR] at hlen
    cases hlen

/-- C2 (amended): `purge_expired` is a no-op when `max_age = 0`; otherwise
it removes exactly those entries whose age exceeds `max_age`, where each
entry's age is measured against a fresh clock reading taken when that
entry is checked (one `make_timestamp()` call per entry, `clock i` for the
`i`-th entry) — not against one single shared "now" snapshot. -/
theorem purge_expired_per_entry_reading (c : JsonCache) (clock : Nat → Int)
    (hnd : (c.cache.map (fun x => x.1)).Nodup) :
    (c.max_age = 0 → JsonCache.purge_expired c clock = c) ∧
    (c.max_age ≠ 0 →
      (JsonCache.purge_expired c clock).cache =
        keepPerEntry c.max_age clock 0 c.cache) := by
  constructor
  · intro h
    rw [JsonCache.purge_expired, if_pos h]
  · intro h
    rw [JsonCache.purge_expired, if_neg h]
    exact filter_old_calls_eq_keep c clock 0 c.cache hnd
      (fun e he => timestampOf_eq_of_mem c.cache e hnd he)

/-- C2 amended-claim witness: evaluating the per-entry-reading
characterization on the counterexample store. -/
theorem purge_expired_per_entry_reading_witness :
    (JsonCache.purge_expired snapshotCex snapshotCexClock).cache =
      keepPerEntry 10 snapshotCexClock 0 snapshotCex.cache :=
  (purge_expired_per_entry_reading snapshotCex snapshotCexClock
    (by decide)).2 (by decide)

/-! ### C3: decorator hit/miss behaviour -/

/-- C3: for the decorator over a wrapped function (with the default
`force_update = false`): if the store loaded from the backing file has no
current entry under the call-key, the wrapped function is invoked exactly
once, its result is stored under the call-key (the flushed session state
is the one containing the new entry), and the freshly stored value is
returned; if the loaded store has a current entry under the call-key, the
wrapped function is not invoked at all and the stored value is returned.
Hence two calls with identical arguments within the cache window invoke
the wrapped function exactly once altogether, and a subsequent call with
different arguments (a different call-key) invokes it a second time; the
witness runs that three-call scenario. -/
theorem cache_wrapper_miss_hit (ms : Nat) (ma : Int) (func : List Int → Json)
    (args : List Int) (kwargs : List (String × Json)) (file : FileContents)
    (m : List CacheEntry) (nowC nowS : Int) (clock : Nat → Int)
    (hkw : kwargsUnpackOk kwargs = true)
    (hread : JsonCache.read_file file = Except.ok m) :
    (JsonCache.contains ⟨ms, ma, false, m⟩ (mkCallString args kwargs) nowC
        = false →
      cacheWrapper ms ma false func args kwargs file nowC nowS clock =
        (Except.ok (func args),
         exitCleanup (JsonCache.store ⟨ms, ma, false, m⟩
           (mkCallString args kwargs) (func args) nowS) clock,
         1)) ∧
    (∀ v, JsonCache.contains ⟨ms, ma, false, m⟩ (mkCallString args kwargs) nowC
        = true →
      JsonCache.retrieve ⟨ms, ma, false, m⟩ (mkCallString args kwargs) = some v →
      cacheWrapper ms ma false func args kwargs file nowC nowS clock =
        (Except.ok v, exitCleanup ⟨ms, ma, false, m⟩ clock, 0)) := by
  constructor
  · intro hmiss
    have hr : JsonCache.retrieve
        (JsonCache.store ⟨ms, ma, false, m⟩ (mkCallString args kwargs)
          (func args) nowS) (mkCallString args kwargs) = some (func args) :=
      responseOf_setEntry_self m (mkCallString args kwargs) (func args) nowS
    simp only [cacheWrapper, hkw, if_true, runSession, hread, hmiss,
      Bool.false_eq_true, if_false, hr]
  · intro v hhit hret
    simp only [cacheWrapper, hkw, if_true, runSession, hread, hhit, if_true, hret]

/-- Wrapped function for the C3 scenario: returns its first argument as a
JSON number (the invocation counts are tracked by the wrapper model). -/
def exCountFunc : List Int → Json :=
  fun a => Json.num (a.headD 0)

/-- Backing file after the C3 scenario's first call. -/
def exFile1 : FileContents :=
  (cacheWrapper 0 10 false exCountFunc [1] [] FileContents.missing 0 0
    (fun _ => 0)).2.1

/-- Backing file after the C3 scenario's second call. -/
def exFile2 : FileContents :=
  (cacheWrapper 0 10 false exCountFunc [1] [] exFile1 5 5 (fun _ => 5)).2.1

/-- C3 witness, the spec's counting scenario with `max_age = 10`: call one
(arguments `(1,)`, fresh file) invokes the function (count 1); call two
five seconds later with identical arguments hits the still-current entry
and does not invoke it (count 0); call three with different arguments
invokes it a second time (count 1). -/
theorem cache_wrapper_miss_hit_witness :
    (cacheWrapper 0 10 false exCountFunc [1] [] FileContents.missing 0 0
        (fun _ => 0) =
      (Except.ok (exCountFunc [1]),
       exitCleanup (JsonCache.store ⟨0, 10, false, []⟩ (mkCallString [1] [])
         (exCountFunc [1]) 0) (fun _ => 0),
       1)) ∧
    (cacheWrapper 0 10 false exCountFunc [1] [] exFile1 5 5 (fun _ => 5) =
      (Except.ok (Json.num 1),
       exitCleanup ⟨0, 10, false, [(mkCallString [1] [], Json.num 1, 0)]⟩
         (fun _ => 5),
       0)) ∧
    (cacheWrapper 0 10 false exCountFunc [2] [] exFile2 6 6 (fun _ => 6) =
      (Except.ok (exCountFunc [2]),
       exitCleanup (JsonCache.store
         ⟨0, 10, false, [(mkCallString [1] [], Json.num 1, 0)]⟩
         (mkCallString [2] []) (exCountFunc [2]) 6) (fun _ => 6),
       1)) :=
  ⟨(cache_wrapper_miss_hit 0 10 exCountFunc [1] [] FileContents.missing []
      0 0 (fun _ => 0) rfl rfl).1 rfl,
   (cache_wrapper_miss_hit 0 10 exCountFunc [1] [] exFile1
      [(mkCallString [1] [], Json.num 1, 0)] 5 5 (fun _ => 5) rfl rfl).2
      (Json.num 1) rfl rfl,
   (cache_wrapper_miss_hit 0 10 exCountFunc [2] [] exFile2
      [(mkCallString [1] [], Json.num 1, 0)] 6 6 (fun _ => 6) rfl rfl).1 rfl⟩

/-! ### C9: keyword-argument names must have exactly two characters -/

/-- C9: `cache_wrapper` iterates `for k, v in kwargs`, tuple-unpacking each
keyword NAME (a string) into two variables; a call with any keyword name
whose length is not exactly 2 raises the unpacking `ValueError` before the
backing file is read and before the wrapped function is invoked (the file
state is returned untouched — even unparseable garbage is never noticed —
and the invocation count is 0); consequently a call that returns a value
can only have keyword names of length exactly 2. -/
theorem kwargs_unpack_two_char_names (ms : Nat) (ma : Int) (fu : Bool)
    (func : List Int → Json) (args : List Int) (kwargs : List (String × Json))
    (file : FileContents) (nowC nowS : Int) (clock : Nat → Int) :
    ((∃ kv ∈ kwargs, kv.1.length ≠ 2) →
      cacheWrapper ms ma fu func args kwargs file nowC nowS clock =
        (Except.error CacheError.valueError, file, 0)) ∧
    (∀ v, (cacheWrapper ms ma fu func args kwargs file nowC nowS clock).1 =
        Except.ok v → ∀ kv ∈ kwargs, kv.1.length = 2) := by
  have hiff : kwargsUnpackOk kwargs = false ↔ ∃ kv ∈ kwargs, kv.1.length ≠ 2 := by
    rw [Bool.eq_false_iff]
    simp only [ne_eq, kwargsUnpackOk, List.all_eq_true, beq_iff_eq]
    push_neg
    constructor
    · intro h
      rcases h with ⟨kv, hkv, hne⟩
      exact ⟨kv, hkv, hne⟩
    · intro h
      rcases h with ⟨kv, hkv, hne⟩
      exact ⟨kv, hkv, hne⟩
  constructor
  · intro hex
    have hk : kwargsUnpackOk kwargs = false := hiff.mpr hex
    simp only [cacheWrapper, hk, Bool.false_eq_true, if_false]
  · intro v hok kv hmem
    by_contra hne
    have hk : kwargsUnpackOk kwargs = false := hiff.mpr ⟨kv, hmem, hne⟩
    simp only [cacheWrapper, hk, Bool.false_eq_true, if_false] at hok
    cases hok

/-- Wrapped function for the C9 witness. -/
def exKwFunc : List Int → Json :=
  fun _ => Json.null

/-- C9 witness: a keyword argument named `"abc"` (three characters) makes
the wrapper fail with the unpacking error, returning the file untouched
(here: unparseable garbage that is never even read) and never invoking the
wrapped function. -/
theorem kwargs_unpack_two_char_names_witness :
    cacheWrapper 0 0 false exKwFunc [] [("abc", Json.null)]
        FileContents.garbage 0 0 (fun _ => 0) =
      (Except.error CacheError.valueError, FileContents.garbage, 0) :=
  (kwargs_unpack_two_char_names 0 0 false exKwFunc [] [("abc", Json.null)]
    FileContents.garbage 0 0 (fun _ => 0)).1
    ⟨("abc", Json.null), List.mem_singleton.mpr rfl, by decide⟩
